import Mathlib

/-!
Shallow embedding of the Word Duel core (src/src/App.tsx): the letter-pool
drawing algorithm, word validation, the hint-card effect catalog, and the
game state machine with its transition functions.  A JS string is embedded
as its list of characters (`Str`); a JS object used as a string-keyed
record is an insertion-ordered association list (assignment updates the
first matching key in place, or appends a fresh key at the end); numbers
are integers or rationals; the randomness source is an explicit stream of
rational values from the unit interval.  `String` is kept only for opaque
labels (card names, player labels) that the code never inspects.
-/

namespace WordDuel

/-- A JS string as its character sequence. -/
abbrev Str := List Char

/-- JS `s.toUpperCase()` (ASCII, which covers the A-Z letters used). -/
def toUpperS (s : Str) : Str := s.map Char.toUpper

/-- JS `s.toLowerCase()` (ASCII). -/
def toLowerS (s : Str) : Str := s.map Char.toLower

/-- JS `s.trim()`: strip whitespace from both ends. -/
def trimS (s : Str) : Str :=
  ((s.dropWhile Char.isWhitespace).reverse.dropWhile Char.isWhitespace).reverse

/-- A JS object `Record of Letter to number` as an insertion-ordered
association list from characters to integers. -/
abbrev Rec := List (Char × Int)

/-- Reading `r[c] or 0`: the value at the first entry whose key is `c`,
defaulting to 0 when the key is absent. -/
def Rec.getD : Rec → Char → Int
  | [], _ => 0
  | (k, v) :: rest, c => if k = c then v else Rec.getD rest c

/-- Writing `r[c] = n`: replace the value at the first entry whose key is
`c`, or append a fresh entry at the end when the key is absent. -/
def Rec.set : Rec → Char → Int → Rec
  | [], c, n => [(c, n)]
  | (k, v) :: rest, c, n => if k = c then (c, n) :: rest else (k, v) :: Rec.set rest c n

/-- Sum of the stored values, i.e. the total number of tiles in an
inventory. -/
def Rec.total (r : Rec) : Int := (r.map Prod.snd).sum

/-- Constant `MIN_WORD_LENGTH` from the source. -/
def MIN_WORD_LENGTH : Nat := 3

/-- Constant `WRONG_GUESS_PENALTY` from the source. -/
def WRONG_GUESS_PENALTY : Int := 2

/-- Table `SCRABBLE_COUNTS` from the source, in the literal key order of the
object (A through Z). -/
def SCRABBLE_COUNTS : Rec :=
  [('A', 9), ('B', 2), ('C', 2), ('D', 4), ('E', 12), ('F', 2), ('G', 3),
   ('H', 2), ('I', 9), ('J', 1), ('K', 1), ('L', 4), ('M', 2), ('N', 6),
   ('O', 8), ('P', 2), ('Q', 1), ('R', 6), ('S', 4), ('T', 6), ('U', 4),
   ('V', 2), ('W', 2), ('X', 1), ('Y', 2), ('Z', 1)]

/-- The `VOWELS` set from the source. -/
def VOWELS : List Char := ['A', 'E', 'I', 'O', 'U']

/-- Function `countLetters`: tally the characters of the uppercased word into a
record, in first-occurrence order. -/
def countLetters (word : Str) : Rec :=
  (toUpperS word).foldl (fun acc ch => Rec.set acc ch (Rec.getD acc ch + 1)) []

/-- The folding step of `countLetters` as a named function. -/
def countStep (acc : Rec) (ch : Char) : Rec := Rec.set acc ch (Rec.getD acc ch + 1)

/-- Function `canBuild`: every letter needed by the word is available in at least
the needed multiplicity. -/
def canBuild (word : Str) (available : Rec) : Bool :=
  (countLetters word).all fun p => decide (p.2 ≤ Rec.getD available p.1)

/-- The inner selection loop of `drawLetters`: subtract each weight from
`rand` in key order and pick the first letter where the running value
drops to or below zero. -/
def pick (rand : ℚ) : Rec → Option Char
  | [] => none
  | (c, w) :: rest => if rand - (w : ℚ) ≤ 0 then some c else pick (rand - (w : ℚ)) rest

/-- The outer loop of `drawLetters`: `k` remaining iterations, `i` the
index of the next random value to consume from `stream`.  Returns the
result record together with the next unconsumed stream index. -/
def drawLettersGo (stream : ℕ → ℚ) : ℕ → Rec → Rec → ℕ → Rec × ℕ
  | i, _, result, 0 => (result, i)
  | i, pool, result, Nat.succ k =>
    let total := Rec.total pool
    if total = 0 then (result, i)
    else
      let rand := stream i * (total : ℚ)
      match pick rand pool with
      | none => drawLettersGo stream (i + 1) pool result k
      | some c =>
          drawLettersGo stream (i + 1)
            (Rec.set pool c (Rec.getD pool c - 1))
            (Rec.set result c (Rec.getD result c + 1)) k

/-- Function `drawLetters(poolCounts, n)` starting at stream index `i`. -/
def drawLetters (poolCounts : Rec) (n : ℕ) (stream : ℕ → ℚ) (i : ℕ) : Rec × ℕ :=
  drawLettersGo stream i poolCounts [] n

/-- Result record of `drawVowelsAndConsonants`. -/
structure DrawResult where
  vowels : Rec
  consonants : Rec
  combined : Rec
  deriving DecidableEq

/-- Function `drawVowelsAndConsonants`: split the Scrabble table into the vowel and
consonant sub-pools, draw 4 vowels then 7 consonants from the shared
random stream, and merge the two results by summing counts per letter. -/
def drawVowelsAndConsonants (stream : ℕ → ℚ) : DrawResult :=
  let vowelPool : Rec := SCRABBLE_COUNTS.filter fun p => VOWELS.contains p.1
  let consonantPool : Rec := SCRABBLE_COUNTS.filter fun p => !(VOWELS.contains p.1)
  let v := drawLetters vowelPool 4 stream 0
  let c := drawLetters consonantPool 7 stream v.2
  let combined :=
    c.1.foldl (fun acc p => Rec.set acc p.1 (Rec.getD acc p.1 + p.2)) v.1
  ⟨v.1, c.1, combined⟩

/-- Membership test of the dictionary service: `isValidWord` checks the
lowercase-trimmed word against the loaded word set, here embedded as the
list of its elements. -/
def isValidWord (words : List Str) (w : Str) : Bool :=
  words.contains (trimS (toLowerS w))

/-- The three validation errors of `validateWord` (the source returns the
corresponding user-facing message strings). -/
inductive WordError where
  | tooShort
  | cannotBuild
  | notInDictionary
  deriving DecidableEq

/-- Function `validateWord`: length check first, then buildability, then dictionary
membership; `none` means the word is accepted. -/
def validateWord (words : List Str) (word : Str) (letters : Rec) : Option WordError :=
  if word.length < MIN_WORD_LENGTH then some .tooShort
  else if canBuild word letters = false then some .cannotBuild
  else if isValidWord words word = false then some .notInDictionary
  else none

/-- Record `RevealedInfo` from the source.  The TS optional fields holding
scalars are `Option`s; `contains`, `knownLetters` and `pattern` are plain
lists with the empty list standing for the absent field (the source reads
them only as `x or empty`, so the two are not distinguishable). -/
structure RevealedInfo where
  length : Option Nat
  firstLetter : Option Char
  lastLetter : Option Char
  vowelCount : Option Nat
  contains : List (Str × Bool)
  knownLetters : List Char
  pattern : List (Nat × Char)
  deriving DecidableEq

/-- The empty `revealed` record. -/
def emptyRevealed : RevealedInfo := ⟨none, none, none, none, [], [], []⟩

/-- Write `r[key] = b` on the string-keyed `contains` record (JS object
spread with one overridden key keeps the position of an existing key and
appends a fresh one). -/
def setContains : List (Str × Bool) → Str → Bool → List (Str × Bool)
  | [], key, b => [(key, b)]
  | (k, v) :: rest, key, b =>
    if k = key then (key, b) :: rest else (k, v) :: setContains rest key b

/-- Lookup on the numeric-keyed `pattern` record. -/
def patternGet : List (Nat × Char) → Nat → Option Char
  | [], _ => none
  | (k, v) :: rest, i => if k = i then some v else patternGet rest i

/-- Write on the numeric-keyed `pattern` record.  (A JS object enumerates
integer-like keys in ascending numeric order; no claim observes the entry
order of `pattern`, so insertion order is used here.) -/
def patternSet : List (Nat × Char) → Nat → Char → List (Nat × Char)
  | [], i, c => [(i, c)]
  | (k, v) :: rest, i, c =>
    if k = i then (i, c) :: rest else (k, v) :: patternSet rest i c

/-- JS `Array.from(new Set(l))`: deduplicate keeping first occurrences. -/
def uniq (l : List Char) : List Char :=
  l.foldl (fun acc c => if acc.contains c then acc else acc ++ [c]) []

/-- JS `s.includes(pat)`: substring containment. -/
def strIncludes (s pat : Str) : Bool :=
  (List.range (s.length + 1)).any fun i => pat.isPrefixOf (s.drop i)

/-- Effect of the "Last Letter" card. -/
def lastLetterEffect (word : Str) (revealed : RevealedInfo) (_input : Str)
    (_rand : ℚ) : RevealedInfo :=
  { revealed with lastLetter := some (Char.toUpper (word.getD (word.length - 1) 'A')) }

/-- Effect of the "Word Length" card. -/
def wordLengthEffect (word : Str) (revealed : RevealedInfo) (_input : Str)
    (_rand : ℚ) : RevealedInfo :=
  { revealed with length := some word.length }

/-- Effect of the "Vowel Count" card. -/
def vowelCountEffect (word : Str) (revealed : RevealedInfo) (_input : Str)
    (_rand : ℚ) : RevealedInfo :=
  { revealed with
    vowelCount := some ((word.filter fun c => VOWELS.contains (Char.toUpper c)).length) }

/-- Effect of the "First Letter" card. -/
def firstLetterEffect (word : Str) (revealed : RevealedInfo) (_input : Str)
    (_rand : ℚ) : RevealedInfo :=
  { revealed with firstLetter := some (Char.toUpper (word.getD 0 'A')) }

/-- Effect of the "Contains Letter?" card: empty input leaves the record
unchanged, otherwise the uppercased input is looked up as a substring of
the uppercased word. -/
def containsLetterEffect (word : Str) (revealed : RevealedInfo) (input : Str)
    (_rand : ℚ) : RevealedInfo :=
  if input = [] then revealed
  else
    let letter := toUpperS input
    let has := strIncludes (toUpperS word) letter
    { revealed with contains := setContains revealed.contains letter has }

/-- Effect of the "Random Letter" card: reveal a uniformly chosen unique
letter of the word that is not yet known; when every unique letter is
already known, return the record unchanged. -/
def randomLetterEffect (word : Str) (revealed : RevealedInfo) (_input : Str)
    (rand : ℚ) : RevealedInfo :=
  let letters := word.map Char.toUpper
  let unique := uniq letters
  let existing := revealed.knownLetters
  let available := unique.filter fun l => !(existing.contains l)
  if available.length = 0 then revealed
  else
    let c := available.getD (Rat.floor (rand * (available.length : ℚ))).toNat 'A'
    { revealed with knownLetters := existing ++ [c] }

/-- Effect of the "Pattern Peek" card: reveal the letter at a uniformly
chosen position not yet present in the pattern; when every position is
revealed, return the record unchanged. -/
def patternPeekEffect (word : Str) (revealed : RevealedInfo) (_input : Str)
    (rand : ℚ) : RevealedInfo :=
  let pattern := revealed.pattern
  let available := (List.range word.length).filter fun i => patternGet pattern i = none
  if available.length = 0 then revealed
  else
    let idx := available.getD (Rat.floor (rand * (available.length : ℚ))).toNat 0
    { revealed with
      pattern := patternSet pattern idx (Char.toUpper (word.getD idx 'A')) }

/-- Effect of the "Double Trouble" card: store under the sentinel key
whether the lowercased word has any repeated letter. -/
def doubleTroubleEffect (word : Str) (revealed : RevealedInfo) (_input : Str)
    (_rand : ℚ) : RevealedInfo :=
  let letters := toLowerS word
  let hasDuplicates := decide ((uniq letters).length < letters.length)
  { revealed with contains := setContains revealed.contains "_DUPLICATES_".toList hasDuplicates }

/-- A hint card.  The source passes the current input text and draws
randomness inside the effect; both are explicit arguments here. -/
structure HintCard where
  id : String
  name : String
  description : String
  cost : Int
  requiresInput : Bool
  effect : Str → RevealedInfo → Str → ℚ → RevealedInfo

/-- The `HINT_CARDS` catalog, in source order. -/
def HINT_CARDS : List HintCard :=
  [⟨"last-letter", "Last Letter", "Reveal the final letter", 1, false, lastLetterEffect⟩,
   ⟨"word-length", "Word Length", "Reveal the length of the word", 3, false, wordLengthEffect⟩,
   ⟨"vowel-count", "Vowel Count", "Reveal how many vowels", 2, false, vowelCountEffect⟩,
   ⟨"first-letter", "First Letter", "Reveal the first letter", 3, false, firstLetterEffect⟩,
   ⟨"contains-letter", "Contains Letter?", "Check if word contains a specific letter", 1, true,
    containsLetterEffect⟩,
   ⟨"random-letter", "Random Letter", "Reveal one random letter (position hidden)", 3, false,
    randomLetterEffect⟩,
   ⟨"pattern-peek", "Pattern Peek", "Reveal one letter at its position", 4, false,
    patternPeekEffect⟩,
   ⟨"double-trouble", "Double Trouble", "Are there any repeated letters?", 2, false,
    doubleTroubleEffect⟩]

/-- Record `PlayerSecret` from the source. -/
structure PlayerSecret where
  letters : Rec
  word : Str
  deriving DecidableEq

/-- Record `PlayerPublic` from the source. -/
structure PlayerPublic where
  score : Int
  guessSolved : Bool
  revealed : RevealedInfo
  deriving DecidableEq

/-- One side of the `p1` and `p2` fields of `GameState` (the TS field is
named `public`, here `pub`). -/
structure Player where
  secret : Option PlayerSecret
  pub : PlayerPublic
  deriving DecidableEq

/-- The `swap` record. -/
structure Swap where
  p1Gets : Rec
  p2Gets : Rec
  deriving DecidableEq

/-- The phase enumeration. -/
inductive Phase where
  | START
  | SETUP_P1
  | SETUP_P2
  | PASS_TO_GUESS_P1
  | GUESS_P1
  | PASS_TO_GUESS_P2
  | GUESS_P2
  | ENDGAME
  deriving DecidableEq

/-- One `hintLog` entry. -/
structure HintLogEntry where
  player : String
  card : String
  cost : Int
  deriving DecidableEq

/-- One `wrongGuesses` entry. -/
structure WrongGuessEntry where
  player : String
  word : Str
  penalty : Int
  deriving DecidableEq

/-- Record `GameState` from the source. -/
structure GameState where
  mode : String
  minWordLen : Nat
  phase : Phase
  p1 : Player
  p2 : Player
  swap : Option Swap
  dictionaryReady : Bool
  hintLog : List HintLogEntry
  wrongGuesses : List WrongGuessEntry
  deriving DecidableEq

/-- A player record with score 0, unsolved, nothing revealed. -/
def freshPublic : PlayerPublic := ⟨0, false, emptyRevealed⟩

/-- The initial state installed by the component. -/
def initState : GameState :=
  ⟨"HIGH_WINS", MIN_WORD_LENGTH, .START, ⟨none, freshPublic⟩, ⟨none, freshPublic⟩,
   none, false, [], []⟩

/-- Transition `startGame`: blocked while the dictionary is loading; otherwise draw
letters for player 1 and move to SETUP_P1. -/
def startGame (s : GameState) (stream : ℕ → ℚ) : GameState :=
  if s.dictionaryReady = false then s
  else
    { s with
      phase := .SETUP_P1,
      p1 := ⟨some ⟨(drawVowelsAndConsonants stream).combined, []⟩, freshPublic⟩ }

/-- Transition `confirmSetupWord`: validate the typed word against the active setup
player inventory; on success store the lowercased word, then either draw
letters for player 2 (after SETUP_P1) or build the swap record (after
SETUP_P2).  On failure the state is unchanged. -/
def confirmSetupWord (s : GameState) (words : List Str) (setupWord : Str)
    (stream : ℕ → ℚ) : GameState :=
  match (if s.phase = Phase.SETUP_P1 then s.p1 else s.p2).secret with
  | none => s
  | some psecret =>
    match validateWord words setupWord psecret.letters with
    | some _ => s
    | none =>
      if s.phase = Phase.SETUP_P1 then
        { s with
          phase := .SETUP_P2,
          p1 := { s.p1 with secret := some { psecret with word := toLowerS setupWord } },
          p2 := ⟨some ⟨(drawVowelsAndConsonants stream).combined, []⟩, freshPublic⟩ }
      else
        { s with
          phase := .PASS_TO_GUESS_P1,
          p2 := { s.p2 with secret := some { psecret with word := toLowerS setupWord } },
          swap := some ⟨psecret.letters,
            (match s.p1.secret with
             | some a => a.letters
             | none => [])⟩ }

/-- Transition `proceedToGuess`: from a pass-through phase move to the matching guess
phase; from any other phase do nothing. -/
def proceedToGuess (s : GameState) : GameState :=
  if s.phase = Phase.PASS_TO_GUESS_P1 then { s with phase := .GUESS_P1 }
  else if s.phase = Phase.PASS_TO_GUESS_P2 then { s with phase := .GUESS_P2 }
  else s

/-- Transition `playHintCard`: charge the card cost to the opponent (the owner of the
guessed word), apply the effect to the acting player revealed record,
append a hint-log entry and pass the turn; an input-requiring card with
blank input and a missing opponent secret both leave the state
unchanged. -/
def playHintCard (s : GameState) (card : HintCard) (cardInput : Str)
    (rand : ℚ) : GameState :=
  match (if s.phase = Phase.GUESS_P1 then s.p2 else s.p1).secret with
  | none => s
  | some osecret =>
    if card.requiresInput ∧ trimS cardInput = [] then s
    else
      let player := if s.phase = Phase.GUESS_P1 then s.p1 else s.p2
      let opponent := if s.phase = Phase.GUESS_P1 then s.p2 else s.p1
      let newRevealed := card.effect osecret.word player.pub.revealed cardInput rand
      let updatedOpponent : Player :=
        { opponent with pub := { opponent.pub with score := opponent.pub.score + card.cost } }
      let updatedPlayer : Player :=
        { player with pub := { player.pub with revealed := newRevealed } }
      { s with
        p1 := if s.phase = Phase.GUESS_P1 then updatedPlayer else updatedOpponent,
        p2 := if s.phase = Phase.GUESS_P1 then updatedOpponent else updatedPlayer,
        hintLog := s.hintLog ++
          [⟨if s.phase = Phase.GUESS_P1 then "Player 1" else "Player 2", card.name, card.cost⟩],
        phase :=
          if updatedPlayer.pub.guessSolved ∧ updatedOpponent.pub.guessSolved then .ENDGAME
          else if s.phase = Phase.GUESS_P1 then .PASS_TO_GUESS_P2 else .PASS_TO_GUESS_P1 }

/-- Transition `submitGuess`: a blank guess and a missing opponent secret leave the
state unchanged; the lowercased guess is compared with the opponent
secret word; a correct guess marks the guesser solved, a wrong guess
charges the penalty to the opponent and logs the guess. -/
def submitGuess (s : GameState) (guessWord : Str) : GameState :=
  if trimS guessWord = [] then s
  else
    match (if s.phase = Phase.GUESS_P1 then s.p2 else s.p1).secret with
    | none => s
    | some osecret =>
      let player := if s.phase = Phase.GUESS_P1 then s.p1 else s.p2
      let opponent := if s.phase = Phase.GUESS_P1 then s.p2 else s.p1
      if toLowerS guessWord = osecret.word then
        let updatedPlayer : Player :=
          { player with pub := { player.pub with guessSolved := true } }
        { s with
          p1 := if s.phase = Phase.GUESS_P1 then updatedPlayer else opponent,
          p2 := if s.phase = Phase.GUESS_P1 then opponent else updatedPlayer,
          phase :=
            if updatedPlayer.pub.guessSolved ∧ opponent.pub.guessSolved then .ENDGAME
            else if s.phase = Phase.GUESS_P1 then .PASS_TO_GUESS_P2 else .PASS_TO_GUESS_P1 }
      else
        let updatedOpponent : Player :=
          { opponent with
            pub := { opponent.pub with score := opponent.pub.score + WRONG_GUESS_PENALTY } }
        { s with
          p1 := if s.phase = Phase.GUESS_P1 then player else updatedOpponent,
          p2 := if s.phase = Phase.GUESS_P1 then updatedOpponent else player,
          wrongGuesses := s.wrongGuesses ++
            [⟨if s.phase = Phase.GUESS_P1 then "Player 1" else "Player 2", guessWord,
              WRONG_GUESS_PENALTY⟩],
          phase := if s.phase = Phase.GUESS_P1 then .PASS_TO_GUESS_P2 else .PASS_TO_GUESS_P1 }

/-- Transition `resetGame`: back to the start phase with everything cleared, keeping
only the dictionary-loader readiness. -/
def resetGame (ready : Bool) : GameState :=
  ⟨"HIGH_WINS", MIN_WORD_LENGTH, .START, ⟨none, freshPublic⟩, ⟨none, freshPublic⟩,
   none, ready, [], []⟩

/-! ### State machine actions and reachability -/

/-- The user-initiated actions of the state machine, each carrying the
inputs the corresponding handler reads (typed words, the selected card and
its input box, the dictionary word set, and the random stream). -/
inductive Action where
  | start (stream : ℕ → ℚ)
  | confirm (words : List Str) (w : Str) (stream : ℕ → ℚ)
  | proceed
  | hint (card : HintCard) (input : Str) (rand : ℚ)
  | guess (w : Str)
  | dictLoaded
  | reset (ready : Bool)

/-- Dispatch an action to its transition function.  `dictLoaded` models
the dictionary-loader callback that flips `dictionaryReady`. -/
def applyAction (s : GameState) : Action → GameState
  | .start stream => startGame s stream
  | .confirm words w stream => confirmSetupWord s words w stream
  | .proceed => proceedToGuess s
  | .hint card input rand => playHintCard s card input rand
  | .guess w => submitGuess s w
  | .dictLoaded => { s with dictionaryReady := true }
  | .reset ready => resetGame ready

/-- The phases in which the presentation layer offers each action: the
start button only on the start screen, word confirmation only on a setup
screen, hint cards (drawn from the catalog) and guesses only on a guess
screen, reset only on the endgame screen. -/
def allowed (s : GameState) : Action → Prop
  | .start _ => s.phase = .START
  | .confirm _ _ _ => s.phase = .SETUP_P1 ∨ s.phase = .SETUP_P2
  | .proceed => True
  | .hint card _ _ => (s.phase = .GUESS_P1 ∨ s.phase = .GUESS_P2) ∧ card ∈ HINT_CARDS
  | .guess _ => s.phase = .GUESS_P1 ∨ s.phase = .GUESS_P2
  | .dictLoaded => True
  | .reset _ => s.phase = .ENDGAME

/-- Game states reachable from the initial state through allowed
actions. -/
inductive Reachable : GameState → Prop where
  | init : Reachable initState
  | step {s : GameState} {a : Action} :
      Reachable s → allowed s a → Reachable (applyAction s a)

/-- Invariant used for the monotonicity proof: on the start screen both
player records are fresh, and during player 1 setup the player 2 record is
still fresh. -/
def StateInv (s : GameState) : Prop :=
  (s.phase = .START → s.p1.pub = freshPublic ∧ s.p2.pub = freshPublic)
  ∧ (s.phase = .SETUP_P1 → s.p2.pub = freshPublic)

/-! ### Concrete fixture states for witnesses and counterexamples -/

/-- A three-tile inventory for the word "cat". -/
def catInv : Rec := [('C', 1), ('A', 1), ('T', 1)]

/-- A three-tile inventory for the word "dog". -/
def dogInv : Rec := [('D', 1), ('O', 1), ('G', 1)]

/-- A guessing-phase fixture: player 1 to act, both secrets confirmed. -/
def guessFx : GameState :=
  ⟨"HIGH_WINS", MIN_WORD_LENGTH, .GUESS_P1,
   ⟨some ⟨dogInv, "dog".toList⟩, freshPublic⟩,
   ⟨some ⟨catInv, "cat".toList⟩, freshPublic⟩,
   some ⟨catInv, dogInv⟩, true, [], []⟩

/-- A player 1 setup fixture. -/
def setupFx : GameState :=
  ⟨"HIGH_WINS", MIN_WORD_LENGTH, .SETUP_P1,
   ⟨some ⟨catInv, []⟩, freshPublic⟩, ⟨none, freshPublic⟩,
   none, true, [], []⟩

/-- A player 2 setup fixture: player 1 already confirmed "dog". -/
def setupFx2 : GameState :=
  ⟨"HIGH_WINS", MIN_WORD_LENGTH, .SETUP_P2,
   ⟨some ⟨dogInv, "dog".toList⟩, freshPublic⟩,
   ⟨some ⟨catInv, []⟩, freshPublic⟩,
   none, true, [], []⟩

/-- The input-requiring card of the catalog, for witnesses. -/
def containsLetterCard : HintCard :=
  ⟨"contains-letter", "Contains Letter?", "Check if word contains a specific letter", 1, true,
   containsLetterEffect⟩

/-- The cost-3 length card of the catalog, for witnesses. -/
def wordLengthCard : HintCard :=
  ⟨"word-length", "Word Length", "Reveal the length of the word", 3, false, wordLengthEffect⟩

/-! ### Association-list record lemmas -/

/-- The key list of a record. -/
def Rec.keys (r : Rec) : List Char := r.map Prod.fst

theorem Rec.getD_set_self (r : Rec) (c : Char) (n : Int) :
    Rec.getD (Rec.set r c n) c = n := by
  induction r with
  | nil => simp [Rec.set, Rec.getD]
  | cons p rest ih =>
    obtain ⟨k, v⟩ := p
    by_cases h : k = c <;> simp [Rec.set, Rec.getD, h, ih]

theorem Rec.getD_set_ne (r : Rec) (c c' : Char) (n : Int) (h : c' ≠ c) :
    Rec.getD (Rec.set r c n) c' = Rec.getD r c' := by
  have h' : c ≠ c' := Ne.symm h
  induction r with
  | nil => simp [Rec.set, Rec.getD, h']
  | cons p rest ih =>
    obtain ⟨k, v⟩ := p
    by_cases hk : k = c
    · subst hk
      simp [Rec.set, Rec.getD, h']
    · by_cases hk' : k = c'
      · subst hk'
        simp [Rec.set, Rec.getD, hk]
      · simp [Rec.set, Rec.getD, hk, hk', ih]

theorem Rec.keys_set (r : Rec) (c : Char) (n : Int) :
    Rec.keys (Rec.set r c n) =
      if c ∈ Rec.keys r then Rec.keys r else Rec.keys r ++ [c] := by
  induction r with
  | nil => simp [Rec.set, Rec.keys]
  | cons p rest ih =>
    obtain ⟨k, v⟩ := p
    by_cases hk : k = c
    · subst hk
      simp [Rec.set, Rec.keys]
    · have hset : Rec.set ((k, v) :: rest) c n = (k, v) :: Rec.set rest c n := by
        simp [Rec.set, hk]
      have hkeys2 : Rec.keys ((k, v) :: rest) = k :: Rec.keys rest := rfl
      rw [hset, show Rec.keys ((k, v) :: Rec.set rest c n) = k :: Rec.keys (Rec.set rest c n)
        from rfl, ih, hkeys2]
      by_cases hm : c ∈ Rec.keys rest
      · rw [if_pos hm, if_pos (List.mem_cons_of_mem _ hm)]
      · rw [if_neg hm, if_neg (show c ∉ k :: Rec.keys rest by
          simp only [List.mem_cons, not_or]
          exact ⟨fun hc => hk hc.symm, hm⟩)]
        simp

theorem Rec.mem_keys_set (r : Rec) (c c' : Char) (n : Int) :
    c' ∈ Rec.keys (Rec.set r c n) ↔ c' ∈ Rec.keys r ∨ c' = c := by
  rw [Rec.keys_set]
  by_cases hm : c ∈ Rec.keys r
  · simp only [if_pos hm]
    constructor
    · exact fun h => Or.inl h
    · rintro (h | rfl)
      · exact h
      · exact hm
  · simp [if_neg hm]

theorem Rec.keys_set_nodup (r : Rec) (c : Char) (n : Int) (h : (Rec.keys r).Nodup) :
    (Rec.keys (Rec.set r c n)).Nodup := by
  rw [Rec.keys_set]
  by_cases hm : c ∈ Rec.keys r
  · simpa [hm] using h
  · simp [hm, List.nodup_append, h]

theorem Rec.getD_of_mem (r : Rec) (p : Char × Int) (hnd : (Rec.keys r).Nodup)
    (hp : p ∈ r) : Rec.getD r p.1 = p.2 := by
  induction r with
  | nil => cases hp
  | cons q rest ih =>
    obtain ⟨k, v⟩ := q
    rcases List.mem_cons.mp hp with h | h
    · subst h
      simp [Rec.getD]
    · have hk : k ≠ p.1 := by
        intro hk
        have : p.1 ∈ Rec.keys rest := List.mem_map_of_mem Prod.fst h
        rw [Rec.keys] at hnd
        simp only [List.map_cons, List.nodup_cons] at hnd
        exact hnd.1 (hk ▸ this)
      have hnd' : (Rec.keys rest).Nodup := by
        rw [Rec.keys] at hnd ⊢
        simp only [List.map_cons, List.nodup_cons] at hnd
        exact hnd.2
      simp [Rec.getD, hk, ih hnd' h]

theorem Rec.exists_of_key_mem (r : Rec) (c : Char) (h : c ∈ Rec.keys r) :
    ∃ v, (c, v) ∈ r := by
  rw [Rec.keys] at h
  obtain ⟨p, hp, hc⟩ := List.mem_map.mp h
  exact ⟨p.2, by rwa [show (c, p.2) = p from by rw [← hc]]⟩

/-! ### countLetters and canBuild -/

theorem countLetters_eq_foldl (w : Str) :
    countLetters w = (toUpperS w).foldl countStep [] := rfl

theorem foldl_countStep_getD (l : List Char) (acc : Rec) (c : Char) :
    Rec.getD (l.foldl countStep acc) c = Rec.getD acc c + l.count c := by
  induction l generalizing acc with
  | nil => simp
  | cons a rest ih =>
    rw [List.foldl_cons, ih]
    by_cases h : a = c
    · subst h
      rw [countStep, Rec.getD_set_self]
      simp [List.count_cons]
      ring
    · rw [countStep, Rec.getD_set_ne _ _ _ _ (Ne.symm h)]
      simp [List.count_cons, h]

theorem foldl_countStep_keys (l : List Char) (acc : Rec) (c : Char) :
    c ∈ Rec.keys (l.foldl countStep acc) ↔ c ∈ Rec.keys acc ∨ c ∈ l := by
  induction l generalizing acc with
  | nil => simp
  | cons a rest ih =>
    rw [List.foldl_cons, ih, countStep, Rec.mem_keys_set]
    simp only [List.mem_cons]
    tauto

theorem foldl_countStep_nodup (l : List Char) (acc : Rec) (h : (Rec.keys acc).Nodup) :
    (Rec.keys (l.foldl countStep acc)).Nodup := by
  induction l generalizing acc with
  | nil => exact h
  | cons a rest ih => exact ih _ (Rec.keys_set_nodup _ _ _ h)

theorem countLetters_getD (w : Str) (c : Char) :
    Rec.getD (countLetters w) c = ((toUpperS w).count c : Int) := by
  rw [countLetters_eq_foldl, foldl_countStep_getD]
  simp [Rec.getD]

theorem countLetters_keys (w : Str) (c : Char) :
    c ∈ Rec.keys (countLetters w) ↔ c ∈ toUpperS w := by
  rw [countLetters_eq_foldl, foldl_countStep_keys]
  simp [Rec.keys]

theorem countLetters_nodup (w : Str) : (Rec.keys (countLetters w)).Nodup := by
  rw [countLetters_eq_foldl]
  exact foldl_countStep_nodup _ _ (by simp [Rec.keys])

/-- The buildability check passes exactly when every needed letter count is
covered by the inventory. -/
theorem canBuild_eq_true_iff (w : Str) (avail : Rec) :
    canBuild w avail = true ↔
      ∀ c ∈ toUpperS w, ((toUpperS w).count c : Int) ≤ Rec.getD avail c := by
  rw [canBuild, List.all_eq_true]
  constructor
  · intro h c hc
    obtain ⟨v, hv⟩ := Rec.exists_of_key_mem _ c ((countLetters_keys w c).mpr hc)
    have hval := Rec.getD_of_mem _ (c, v) (countLetters_nodup w) hv
    have := h _ hv
    rw [decide_eq_true_eq] at this
    simpa [← countLetters_getD, hval] using this
  · intro h p hp
    rw [decide_eq_true_eq]
    have hkey : p.1 ∈ toUpperS w :=
      (countLetters_keys w p.1).mp (List.mem_map_of_mem Prod.fst hp)
    have hval := Rec.getD_of_mem _ p (countLetters_nodup w) hp
    have := h p.1 hkey
    rwa [← countLetters_getD, hval] at this

theorem getD_nonneg_of_entries (r : Rec) (h : ∀ p ∈ r, 0 ≤ p.2) (c : Char) :
    0 ≤ Rec.getD r c := by
  induction r with
  | nil => simp [Rec.getD]
  | cons q rest ih =>
    obtain ⟨k, v⟩ := q
    by_cases hk : k = c
    · simpa [Rec.getD, hk] using h (k, v) (by simp)
    · exact (by simpa [Rec.getD, hk] using ih fun p hp => h p (List.mem_cons_of_mem _ hp))

/-! ### Claim C5: buildability soundness and completeness -/

/-- C5: for a nonnegative inventory, a word whose case-insensitive letter
counts are all covered is accepted by `canBuild`, and a word needing more
of some letter than the inventory holds is rejected. -/
theorem C5_canBuild_correct (avail : Rec) (w : Str) (hpos : ∀ p ∈ avail, 0 ≤ p.2) :
    ((∀ c, ((toUpperS w).count c : Int) ≤ Rec.getD avail c) → canBuild w avail = true)
    ∧ (∀ c, Rec.getD avail c < ((toUpperS w).count c : Int) → canBuild w avail = false) := by
  constructor
  · intro h
    exact (canBuild_eq_true_iff w avail).mpr fun c _ => h c
  · intro c hc
    have hmem : c ∈ toUpperS w := by
      have h0 : (0 : Int) ≤ Rec.getD avail c := getD_nonneg_of_entries avail hpos c
      have : 0 < (toUpperS w).count c := by
        rcases Nat.eq_zero_or_pos ((toUpperS w).count c) with h | h
        · rw [h] at hc
          norm_num at hc
          omega
        · exact h
      exact List.count_pos_iff.mp this
    by_contra hne
    have : canBuild w avail = true := by
      cases hcb : canBuild w avail
      · exact absurd hcb hne
      · rfl
    have := (canBuild_eq_true_iff w avail).mp this c hmem
    omega

/-- Witness for C5 at concrete inputs: the inventory C,A,T accepts "cat",
and the inventory holding a single C rejects "cc". -/
theorem C5_canBuild_correct_witness :
    canBuild "cat".toList [('C', 1), ('A', 1), ('T', 1)] = true
    ∧ canBuild "cc".toList [('C', 1)] = false := by
  constructor
  · apply (C5_canBuild_correct [('C', 1), ('A', 1), ('T', 1)] "cat".toList
      (by decide)).1
    intro c
    have hw : toUpperS "cat".toList = ['C', 'A', 'T'] := by decide
    rw [hw]
    by_cases h1 : c = 'C'
    · subst h1; decide
    · by_cases h2 : c = 'A'
      · subst h2; decide
      · by_cases h3 : c = 'T'
        · subst h3; decide
        · have : List.count c ['C', 'A', 'T'] = 0 :=
            List.count_eq_zero.mpr (by simp [h1, h2, h3])
          rw [this]
          simp [Rec.getD, Ne.symm h1, Ne.symm h2, Ne.symm h3]
  · exact (C5_canBuild_correct [('C', 1)] "cc".toList (by decide)).2 'C' (by decide)

/-! ### Claim C4: validation order -/

theorem contains_eq_true_iff (ws : List Str) (s : Str) : ws.contains s = true ↔ s ∈ ws := by
  simp [List.elem_iff]

/-- C4: `validateWord` reports the too-short error exactly for words below
the minimum length, the buildability error exactly for long-enough words
the inventory cannot build, the dictionary error exactly for long-enough
buildable words whose lowercase-trimmed form is not in the word set, and
accepts the word otherwise. -/
theorem C4_validateWord_order (words : List Str) (word : Str) (letters : Rec) :
    (validateWord words word letters = some .tooShort ↔ word.length < MIN_WORD_LENGTH)
    ∧ (validateWord words word letters = some .cannotBuild ↔
        (MIN_WORD_LENGTH ≤ word.length ∧ canBuild word letters = false))
    ∧ (validateWord words word letters = some .notInDictionary ↔
        (MIN_WORD_LENGTH ≤ word.length ∧ canBuild word letters = true ∧
          trimS (toLowerS word) ∉ words))
    ∧ (validateWord words word letters = none ↔
        (MIN_WORD_LENGTH ≤ word.length ∧ canBuild word letters = true ∧
          trimS (toLowerS word) ∈ words)) := by
  rw [validateWord]
  split_ifs with h1 h2 h3 <;>
    simp_all [isValidWord, contains_eq_true_iff, not_lt, Bool.not_eq_false,
      Bool.not_eq_true]

/-! ### Claim C6: the letter draw on the all-zeros random stream -/

/-- C6: the all-zeros random stream is a legal sequence of `randomFloat`
outputs (each value lies in the unit interval), yet on it the draw
produces three B tiles although the Scrabble table holds only two: the
selection loop accepts a zero-weight letter at the head of the pool when
the scaled random value is exactly zero.  The 4-vowel, 7-consonant total
of 11 tiles still holds on this stream. -/
theorem C6_draw_exceeds_table :
    ((0 : ℚ) ≤ 0 ∧ (0 : ℚ) < 1)
    ∧ Rec.getD (drawVowelsAndConsonants (fun _ => 0)).combined 'B' = 3
    ∧ Rec.getD SCRABBLE_COUNTS 'B' = 2
    ∧ Rec.total (drawVowelsAndConsonants (fun _ => 0)).combined = 11 := by
  have hv : SCRABBLE_COUNTS.filter (fun p => VOWELS.contains p.1) =
      [('A', 9), ('E', 12), ('I', 9), ('O', 8), ('U', 4)] := by decide
  have hc : SCRABBLE_COUNTS.filter (fun p => !(VOWELS.contains p.1)) =
      [('B', 2), ('C', 2), ('D', 4), ('F', 2), ('G', 3), ('H', 2), ('J', 1), ('K', 1),
       ('L', 4), ('M', 2), ('N', 6), ('P', 2), ('Q', 1), ('R', 6), ('S', 4), ('T', 6),
       ('V', 2), ('W', 2), ('X', 1), ('Y', 2), ('Z', 1)] := by decide
  have hcomb : (drawVowelsAndConsonants (fun _ => 0)).combined =
      [('A', 4), ('B', 3), ('C', 2), ('D', 2)] := by
    simp only [drawVowelsAndConsonants, drawLetters, hv, hc]
    norm_num +decide [drawLettersGo, pick, Rec.total, Rec.set, Rec.getD]
  refine ⟨⟨le_refl 0, by norm_num⟩, ?_, by decide, ?_⟩
  · rw [hcomb]; decide
  · rw [hcomb]; decide

/-! ### Claim C8: Random Letter is a no-op once all letters are known -/

theorem mem_of_mem_uniq (l : List Char) (x : Char) (h : x ∈ uniq l) : x ∈ l := by
  suffices hgen : ∀ (l : List Char) (acc : List Char), x ∈ l.foldl
      (fun acc c => if acc.contains c then acc else acc ++ [c]) acc → x ∈ acc ∨ x ∈ l by
    rcases hgen l [] h with h' | h'
    · cases h'
    · exact h'
  intro l
  induction l with
  | nil => intro acc h; exact Or.inl h
  | cons a rest ih =>
    intro acc h
    rw [List.foldl_cons] at h
    rcases ih _ h with h' | h'
    · by_cases hc : acc.contains a
      · rw [if_pos hc] at h'
        exact Or.inl h'
      · rw [if_neg hc] at h'
        rcases List.mem_append.mp h' with h'' | h''
        · exact Or.inl h''
        · simp only [List.mem_singleton] at h''
          exact Or.inr (h'' ▸ List.mem_cons_self a rest)
    · exact Or.inr (List.mem_cons_of_mem a h')

/-- C8: once every distinct uppercased letter of the secret word is
already in `knownLetters`, the Random Letter effect returns the revealed
record unchanged, so `knownLetters` gains no entry and stays free of
duplicates. -/
theorem C8_random_letter_idempotent (word : Str) (revealed : RevealedInfo)
    (input : Str) (rand : ℚ)
    (hknown : ∀ c ∈ word, Char.toUpper c ∈ revealed.knownLetters) :
    randomLetterEffect word revealed input rand = revealed
    ∧ (randomLetterEffect word revealed input rand).knownLetters = revealed.knownLetters
    ∧ (revealed.knownLetters.Nodup →
        (randomLetterEffect word revealed input rand).knownLetters.Nodup) := by
  have hav : (uniq (word.map Char.toUpper)).filter
      (fun l => !(revealed.knownLetters.contains l)) = [] := by
    rw [List.filter_eq_nil_iff]
    intro a ha
    have hmem : a ∈ word.map Char.toUpper := mem_of_mem_uniq _ _ ha
    obtain ⟨c, hc, rfl⟩ := List.mem_map.mp hmem
    simp [hknown c hc]
  have heq : randomLetterEffect word revealed input rand = revealed := by
    rw [randomLetterEffect]
    simp only [hav]
    simp
  exact ⟨heq, by rw [heq], fun h => by rw [heq]; exact h⟩

/-- Witness for C8: with secret "cat" and known letters C, A, T the effect
is the identity. -/
theorem C8_random_letter_idempotent_witness :
    randomLetterEffect "cat".toList ⟨none, none, none, none, [], ['C', 'A', 'T'], []⟩
      [] 0 = ⟨none, none, none, none, [], ['C', 'A', 'T'], []⟩ :=
  (C8_random_letter_idempotent "cat".toList
    ⟨none, none, none, none, [], ['C', 'A', 'T'], []⟩ [] 0 (by decide)).1

/-! ### Claim C9: rejected actions leave the state unchanged -/

/-- C9: a setup word failing validation, an input-requiring hint card with
a blank input, a blank guess, and a start press while the dictionary is
not ready all leave the game state exactly as it was. -/
theorem C9_errors_leave_state_unchanged :
    (∀ (s : GameState) (words : List Str) (w : Str) (stream : ℕ → ℚ) (ps : PlayerSecret),
      (if s.phase = Phase.SETUP_P1 then s.p1 else s.p2).secret = some ps →
      validateWord words w ps.letters ≠ none →
      confirmSetupWord s words w stream = s)
    ∧ (∀ (s : GameState) (card : HintCard) (input : Str) (rand : ℚ),
      card.requiresInput = true → trimS input = [] →
      playHintCard s card input rand = s)
    ∧ (∀ (s : GameState) (g : Str), trimS g = [] → submitGuess s g = s)
    ∧ (∀ (s : GameState) (stream : ℕ → ℚ), s.dictionaryReady = false →
      startGame s stream = s) := by
  refine ⟨?_, ?_, ?_, ?_⟩
  · intro s words w stream ps hsec hval
    cases hv : validateWord words w ps.letters with
    | none => exact absurd hv hval
    | some e => simp [confirmSetupWord, hsec, hv]
  · intro s card input rand hreq htrim
    cases hsec : (if s.phase = Phase.GUESS_P1 then s.p2 else s.p1).secret with
    | none => simp [playHintCard, hsec]
    | some o => simp [playHintCard, hsec, hreq, htrim]
  · intro s g h
    simp [submitGuess, h]
  · intro s stream h
    simp [startGame, h]

/-- Witness for C9 at concrete inputs: a too-short setup word, the
Contains Letter card with a blank input, a whitespace guess, and a start
press before the dictionary loads. -/
theorem C9_errors_leave_state_unchanged_witness :
    confirmSetupWord setupFx ["cat".toList] "xy".toList (fun _ => 0) = setupFx
    ∧ playHintCard guessFx containsLetterCard " ".toList 0 = guessFx
    ∧ submitGuess guessFx " ".toList = guessFx
    ∧ startGame initState (fun _ => 0) = initState := by
  refine ⟨?_, ?_, ?_, ?_⟩
  · exact C9_errors_leave_state_unchanged.1 setupFx ["cat".toList] "xy".toList
      (fun _ => 0) ⟨catInv, []⟩ (by decide) (by decide)
  · exact C9_errors_leave_state_unchanged.2.1 guessFx containsLetterCard " ".toList 0
      rfl (by decide)
  · exact C9_errors_leave_state_unchanged.2.2.1 guessFx " ".toList (by decide)
  · exact C9_errors_leave_state_unchanged.2.2.2 initState (fun _ => 0) rfl

/-! ### Claim C1: playing a hint card -/

/-- C1: in a guessing phase with both secrets set, a successfully played
hint card charges its cost to the opponent of the acting player (the owner
of the guessed word), leaves the acting player score unchanged, stores the
effect output as the acting player revealed record, appends exactly one
hint-log entry, and passes the turn to the other player (ENDGAME when both
solved flags were already true). -/
theorem C1_play_hint_card (s : GameState) (card : HintCard) (input : Str) (rand : ℚ)
    (ps1 ps2 : PlayerSecret)
    (hphase : s.phase = Phase.GUESS_P1 ∨ s.phase = Phase.GUESS_P2)
    (hs1 : s.p1.secret = some ps1) (hs2 : s.p2.secret = some ps2)
    (hinput : card.requiresInput = true → trimS input ≠ []) :
    ((if s.phase = Phase.GUESS_P1 then (playHintCard s card input rand).p2
      else (playHintCard s card input rand).p1).pub.score =
      (if s.phase = Phase.GUESS_P1 then s.p2 else s.p1).pub.score + card.cost)
    ∧ ((if s.phase = Phase.GUESS_P1 then (playHintCard s card input rand).p1
      else (playHintCard s card input rand).p2).pub.score =
      (if s.phase = Phase.GUESS_P1 then s.p1 else s.p2).pub.score)
    ∧ ((if s.phase = Phase.GUESS_P1 then (playHintCard s card input rand).p1
      else (playHintCard s card input rand).p2).pub.revealed =
      card.effect (if s.phase = Phase.GUESS_P1 then ps2.word else ps1.word)
        (if s.phase = Phase.GUESS_P1 then s.p1 else s.p2).pub.revealed input rand)
    ∧ ((playHintCard s card input rand).hintLog = s.hintLog ++
        [⟨if s.phase = Phase.GUESS_P1 then "Player 1" else "Player 2", card.name, card.cost⟩])
    ∧ ((playHintCard s card input rand).phase =
        if (if s.phase = Phase.GUESS_P1 then s.p1 else s.p2).pub.guessSolved
            ∧ (if s.phase = Phase.GUESS_P1 then s.p2 else s.p1).pub.guessSolved
        then Phase.ENDGAME
        else if s.phase = Phase.GUESS_P1 then Phase.PASS_TO_GUESS_P2
        else Phase.PASS_TO_GUESS_P1) := by
  have hguard : ¬(card.requiresInput = true ∧ trimS input = []) := fun h => hinput h.1 h.2
  rcases hphase with hp | hp <;>
    simp [playHintCard, hp, hs1, hs2, hguard]

/-- Witness for C1: player 1 plays Word Length (cost 3) against the
secret "cat"; player 2 is charged 3, the log grows by one entry and the
turn passes to player 2. -/
theorem C1_play_hint_card_witness :
    (playHintCard guessFx wordLengthCard [] 0).p2.pub.score =
      guessFx.p2.pub.score + wordLengthCard.cost
    ∧ (playHintCard guessFx wordLengthCard [] 0).p1.pub.score = guessFx.p1.pub.score
    ∧ (playHintCard guessFx wordLengthCard [] 0).p1.pub.revealed =
      wordLengthCard.effect "cat".toList guessFx.p1.pub.revealed [] 0
    ∧ (playHintCard guessFx wordLengthCard [] 0).hintLog =
      guessFx.hintLog ++ [⟨"Player 1", wordLengthCard.name, wordLengthCard.cost⟩]
    ∧ (playHintCard guessFx wordLengthCard [] 0).phase = Phase.PASS_TO_GUESS_P2 := by
  have h := C1_play_hint_card guessFx wordLengthCard [] 0
    ⟨dogInv, "dog".toList⟩ ⟨catInv, "cat".toList⟩
    (Or.inl rfl) rfl rfl (fun hreq => by cases hreq)
  refine ⟨?_, ?_, ?_, ?_, ?_⟩
  · simpa using h.1
  · simpa using h.2.1
  · simpa using h.2.2.1
  · simpa using h.2.2.2.1
  · simpa using h.2.2.2.2

/-! ### Claim C2: a wrong guess -/

/-- C2: in a guessing phase with both secrets set, a non-blank guess whose
lowercased form differs from the opponent secret word charges the fixed
penalty of 2 to the opponent of the guesser, leaves the guesser score
unchanged, appends exactly one wrong-guess entry holding the raw guess,
and always passes the turn to the other player (never ENDGAME). -/
theorem C2_wrong_guess (s : GameState) (g : Str) (ps1 ps2 : PlayerSecret)
    (hphase : s.phase = Phase.GUESS_P1 ∨ s.phase = Phase.GUESS_P2)
    (hs1 : s.p1.secret = some ps1) (hs2 : s.p2.secret = some ps2)
    (hne : trimS g ≠ [])
    (hwrong : toLowerS g ≠ (if s.phase = Phase.GUESS_P1 then ps2.word else ps1.word)) :
    ((if s.phase = Phase.GUESS_P1 then (submitGuess s g).p2
      else (submitGuess s g).p1).pub.score =
      (if s.phase = Phase.GUESS_P1 then s.p2 else s.p1).pub.score + WRONG_GUESS_PENALTY)
    ∧ ((if s.phase = Phase.GUESS_P1 then (submitGuess s g).p1
      else (submitGuess s g).p2).pub.score =
      (if s.phase = Phase.GUESS_P1 then s.p1 else s.p2).pub.score)
    ∧ ((submitGuess s g).wrongGuesses = s.wrongGuesses ++
        [⟨if s.phase = Phase.GUESS_P1 then "Player 1" else "Player 2", g,
          WRONG_GUESS_PENALTY⟩])
    ∧ ((submitGuess s g).phase =
        if s.phase = Phase.GUESS_P1 then Phase.PASS_TO_GUESS_P2
        else Phase.PASS_TO_GUESS_P1) := by
  rcases hphase with hp | hp <;>
    simp_all [submitGuess, hp, hs1, hs2, hne, hwrong]

/-- Witness for C2: player 1 wrongly guesses "dog" against the secret
"cat"; player 2 is charged 2, the wrong-guess log grows by one entry and
the turn passes to player 2. -/
theorem C2_wrong_guess_witness :
    (submitGuess guessFx "dog".toList).p2.pub.score = guessFx.p2.pub.score + 2
    ∧ (submitGuess guessFx "dog".toList).p1.pub.score = guessFx.p1.pub.score
    ∧ (submitGuess guessFx "dog".toList).wrongGuesses =
      guessFx.wrongGuesses ++ [⟨"Player 1", "dog".toList, 2⟩]
    ∧ (submitGuess guessFx "dog".toList).phase = Phase.PASS_TO_GUESS_P2 := by
  have h := C2_wrong_guess guessFx "dog".toList
    ⟨dogInv, "dog".toList⟩ ⟨catInv, "cat".toList⟩
    (Or.inl rfl) rfl rfl (by decide) (by decide)
  refine ⟨?_, ?_, ?_, ?_⟩
  · simpa [WRONG_GUESS_PENALTY] using h.1
  · simpa using h.2.1
  · simpa [WRONG_GUESS_PENALTY] using h.2.2.1
  · simpa using h.2.2.2

/-! ### Claim C3: guess comparison is lowercased but not trimmed -/

/-- Counterexample to C3 as stated: the guess " cat" (with a leading
space) has lowercase-trimmed form equal to the opponent secret "cat", yet
the code judges it incorrect: the guesser is not marked solved and the
opponent is charged the wrong-guess penalty. -/
theorem C3_counterexample :
    trimS (toLowerS " cat".toList) = "cat".toList
    ∧ guessFx.phase = Phase.GUESS_P1
    ∧ guessFx.p2.secret = some ⟨catInv, "cat".toList⟩
    ∧ (submitGuess guessFx " cat".toList).p1.pub.guessSolved = false
    ∧ (submitGuess guessFx " cat".toList).p2.pub.score = guessFx.p2.pub.score + 2 := by
  decide

/-- C3 as amended: the comparison lowercases the guess but does not trim
it.  For every guess whose lowercased (untrimmed) form equals the opponent
secret word, the guesser is marked solved, neither score changes, and the
phase becomes ENDGAME when the opponent was already solved, otherwise the
opposite pass-through phase. -/
theorem C3_correct_guess_amended (s : GameState) (g : Str) (ps1 ps2 : PlayerSecret)
    (hphase : s.phase = Phase.GUESS_P1 ∨ s.phase = Phase.GUESS_P2)
    (hs1 : s.p1.secret = some ps1) (hs2 : s.p2.secret = some ps2)
    (hne : trimS g ≠ [])
    (hcorrect : toLowerS g = (if s.phase = Phase.GUESS_P1 then ps2.word else ps1.word)) :
    ((if s.phase = Phase.GUESS_P1 then (submitGuess s g).p1
      else (submitGuess s g).p2).pub.guessSolved = true)
    ∧ ((submitGuess s g).p1.pub.score = s.p1.pub.score)
    ∧ ((submitGuess s g).p2.pub.score = s.p2.pub.score)
    ∧ ((submitGuess s g).phase =
        if (if s.phase = Phase.GUESS_P1 then s.p2 else s.p1).pub.guessSolved
        then Phase.ENDGAME
        else if s.phase = Phase.GUESS_P1 then Phase.PASS_TO_GUESS_P2
        else Phase.PASS_TO_GUESS_P1) := by
  rcases hphase with hp | hp <;>
    simp_all [submitGuess, hp, hs1, hs2, hne, hcorrect]

/-- Witness for the amended C3: player 1 guesses "Cat" against the secret
"cat"; the guess is judged correct, no score changes and the phase moves
to the player 2 pass screen. -/
theorem C3_correct_guess_amended_witness :
    (submitGuess guessFx "Cat".toList).p1.pub.guessSolved = true
    ∧ (submitGuess guessFx "Cat".toList).p1.pub.score = guessFx.p1.pub.score
    ∧ (submitGuess guessFx "Cat".toList).p2.pub.score = guessFx.p2.pub.score
    ∧ (submitGuess guessFx "Cat".toList).phase = Phase.PASS_TO_GUESS_P2 := by
  have h := C3_correct_guess_amended guessFx "Cat".toList
    ⟨dogInv, "dog".toList⟩ ⟨catInv, "cat".toList⟩
    (Or.inl rfl) rfl rfl (by decide) (by decide)
  refine ⟨?_, ?_, ?_, ?_⟩
  · simpa using h.1
  · simpa using h.2.1
  · simpa using h.2.2.1
  · simpa using h.2.2.2

/-! ### Totals of the letter draw -/

theorem Rec.total_set (r : Rec) (c : Char) (n : Int) :
    Rec.total (Rec.set r c n) = Rec.total r + n - Rec.getD r c := by
  induction r with
  | nil => simp [Rec.set, Rec.total, Rec.getD]
  | cons p rest ih =>
    obtain ⟨k, v⟩ := p
    by_cases hk : k = c
    · subst hk
      simp [Rec.set, Rec.total, Rec.getD]
      ring
    · simp [Rec.set, Rec.total, Rec.getD, hk] at ih ⊢
      rw [ih]
      ring

theorem pick_isSome (pool : Rec) (rand : ℚ) (hne : pool ≠ [])
    (hle : rand ≤ ((Rec.total pool : Int) : ℚ)) : ∃ c, pick rand pool = some c := by
  induction pool generalizing rand with
  | nil => exact absurd rfl hne
  | cons p rest ih =>
    obtain ⟨c, w⟩ := p
    by_cases h : rand - (w : ℚ) ≤ 0
    · exact ⟨c, by simp [pick, h]⟩
    · have htot : Rec.total ((c, w) :: rest) = w + Rec.total rest := by
        simp [Rec.total]
      by_cases hrne : rest = []
      · subst hrne
        rw [htot] at hle
        simp [Rec.total] at hle
        exact absurd (by linarith) h
      · have hle' : rand - (w : ℚ) ≤ ((Rec.total rest : Int) : ℚ) := by
          rw [htot] at hle
          push_cast at hle
          linarith
        obtain ⟨c', hc'⟩ := ih (rand - (w : ℚ)) hrne hle'
        exact ⟨c', by simp [pick, h, hc']⟩

theorem drawLettersGo_total (stream : ℕ → ℚ) (hstream : ∀ i, 0 ≤ stream i ∧ stream i < 1)
    (k : ℕ) : ∀ (i : ℕ) (pool result : Rec), (k : Int) ≤ Rec.total pool →
    Rec.total (drawLettersGo stream i pool result k).1 = Rec.total result + k := by
  induction k with
  | zero => intro i pool result _; simp [drawLettersGo]
  | succ k ih =>
    intro i pool result h
    have htot : ¬(Rec.total pool = 0) := by
      intro h0
      rw [h0] at h
      push_cast at h
      omega
    have hne : pool ≠ [] := by
      rintro rfl
      exact htot (by simp [Rec.total])
    have htpos : (0 : ℚ) < ((Rec.total pool : Int) : ℚ) := by
      have h1 : (1 : Int) ≤ Rec.total pool := by
        push_cast at h
        omega
      exact_mod_cast lt_of_lt_of_le Int.zero_lt_one h1
    have hrand : stream i * ((Rec.total pool : Int) : ℚ) ≤ ((Rec.total pool : Int) : ℚ) := by
      have h0 := (hstream i).1
      have h1 := (hstream i).2
      nlinarith
    obtain ⟨c, hc⟩ := pick_isSome pool _ hne hrand
    have hstep : drawLettersGo stream i pool result (Nat.succ k) =
        drawLettersGo stream (i + 1)
          (Rec.set pool c (Rec.getD pool c - 1))
          (Rec.set result c (Rec.getD result c + 1)) k := by
      rw [drawLettersGo]
      simp only [if_neg htot, hc]
    rw [hstep, ih (i + 1) _ _ (by rw [Rec.total_set]; push_cast at h ⊢; omega),
      Rec.total_set]
    push_cast
    ring

theorem total_foldl_merge (entries : List (Char × Int)) (base : Rec) :
    Rec.total (entries.foldl (fun acc p => Rec.set acc p.1 (Rec.getD acc p.1 + p.2)) base)
      = Rec.total base + (entries.map Prod.snd).sum := by
  induction entries generalizing base with
  | nil => simp
  | cons p rest ih =>
    rw [List.foldl_cons, ih, Rec.total_set]
    simp
    ring

/-- Any draw whose random values all lie in the unit interval yields
exactly 11 tiles in the combined inventory (4 vowels plus 7
consonants). -/
theorem draw_total_eleven (stream : ℕ → ℚ)
    (hstream : ∀ i, 0 ≤ stream i ∧ stream i < 1) :
    Rec.total (drawVowelsAndConsonants stream).combined = 11 := by
  have hv : Rec.total (SCRABBLE_COUNTS.filter fun p => VOWELS.contains p.1) = 42 := by
    decide
  have hc : Rec.total (SCRABBLE_COUNTS.filter fun p => !(VOWELS.contains p.1)) = 56 := by
    decide
  have hvtot : Rec.total (drawLettersGo stream 0
      (SCRABBLE_COUNTS.filter fun p => VOWELS.contains p.1) [] 4).1 = 4 := by
    rw [drawLettersGo_total stream hstream 4 0 _ [] (by rw [hv]; norm_num)]
    simp [Rec.total]
  have hctot : ∀ j, Rec.total (drawLettersGo stream j
      (SCRABBLE_COUNTS.filter fun p => !(VOWELS.contains p.1)) [] 7).1 = 7 := by
    intro j
    rw [drawLettersGo_total stream hstream 7 j _ [] (by rw [hc]; norm_num)]
    simp [Rec.total]
  show Rec.total ((drawLetters _ 7 stream _).1.foldl
      (fun acc p => Rec.set acc p.1 (Rec.getD acc p.1 + p.2)) (drawLetters _ 4 stream 0).1) = 11
  rw [total_foldl_merge]
  have : ((drawLetters (SCRABBLE_COUNTS.filter fun p => !(VOWELS.contains p.1)) 7 stream
      (drawLetters (SCRABBLE_COUNTS.filter fun p => VOWELS.contains p.1) 4 stream 0).2).1.map
        Prod.snd).sum =
      Rec.total (drawLetters (SCRABBLE_COUNTS.filter fun p => !(VOWELS.contains p.1)) 7 stream
      (drawLetters (SCRABBLE_COUNTS.filter fun p => VOWELS.contains p.1) 4 stream 0).2).1 := rfl
  rw [this, drawLetters, drawLetters, hvtot, hctot]
  norm_num

/-! ### Claim C10: confirming a word never deducts letters -/

/-- C10: a successful word confirmation stores the lowercased word but
leaves the stored letter inventory untouched, and after player 2 confirms,
the swap hands each player exactly the full original inventory of the
other player; inventories produced by the draw always hold 11 tiles. -/
theorem C10_confirm_keeps_inventory :
    (∀ (s : GameState) (words : List Str) (w : Str) (stream : ℕ → ℚ) (ps : PlayerSecret),
      s.phase = Phase.SETUP_P1 → s.p1.secret = some ps →
      validateWord words w ps.letters = none →
      (confirmSetupWord s words w stream).p1.secret = some ⟨ps.letters, toLowerS w⟩)
    ∧ (∀ (s : GameState) (words : List Str) (w : Str) (stream : ℕ → ℚ)
        (ps1 ps2 : PlayerSecret),
      s.phase = Phase.SETUP_P2 → s.p1.secret = some ps1 → s.p2.secret = some ps2 →
      validateWord words w ps2.letters = none →
      (confirmSetupWord s words w stream).swap = some ⟨ps2.letters, ps1.letters⟩
      ∧ (confirmSetupWord s words w stream).p2.secret = some ⟨ps2.letters, toLowerS w⟩
      ∧ (confirmSetupWord s words w stream).p1 = s.p1)
    ∧ (∀ stream : ℕ → ℚ, (∀ i, 0 ≤ stream i ∧ stream i < 1) →
      Rec.total (drawVowelsAndConsonants stream).combined = 11) := by
  refine ⟨?_, ?_, fun stream h => draw_total_eleven stream h⟩
  · intro s words w stream ps hp hs1 hval
    simp [confirmSetupWord, hp, hs1, hval]
  · intro s words w stream ps1 ps2 hp hs1 hs2 hval
    refine ⟨?_, ?_, ?_⟩ <;> simp [confirmSetupWord, hp, hs1, hs2, hval]

/-- Witness for C10: confirming "cat" on the concrete setup fixtures keeps
the C,A,T inventory, the swap hands over the original inventories, and the
constant-half stream draws 11 tiles. -/
theorem C10_confirm_keeps_inventory_witness :
    (confirmSetupWord setupFx ["cat".toList] "cat".toList (fun _ => 1/2)).p1.secret =
      some ⟨catInv, toLowerS "cat".toList⟩
    ∧ (confirmSetupWord setupFx2 ["cat".toList] "cat".toList (fun _ => 1/2)).swap =
      some ⟨catInv, dogInv⟩
    ∧ Rec.total (drawVowelsAndConsonants (fun _ => 1/2)).combined = 11 := by
  refine ⟨?_, ?_, ?_⟩
  · exact C10_confirm_keeps_inventory.1 setupFx ["cat".toList] "cat".toList
      (fun _ => 1/2) ⟨catInv, []⟩ rfl rfl (by decide)
  · exact (C10_confirm_keeps_inventory.2.1 setupFx2 ["cat".toList] "cat".toList
      (fun _ => 1/2) ⟨dogInv, "dog".toList⟩ ⟨catInv, []⟩ rfl rfl rfl (by decide)).1
  · exact C10_confirm_keeps_inventory.2.2 (fun _ => 1/2)
      (fun i => ⟨by norm_num, by norm_num⟩)

/-! ### Claim C7: scores never decrease, solved flags never revert -/

theorem cost_nonneg_of_catalog (c : HintCard) (h : c ∈ HINT_CARDS) : 0 ≤ c.cost := by
  simp only [HINT_CARDS, List.mem_cons, List.not_mem_nil, or_false] at h
  rcases h with rfl | rfl | rfl | rfl | rfl | rfl | rfl | rfl <;> norm_num

theorem stateInv_init : StateInv initState := by
  constructor
  · intro _
    exact ⟨rfl, rfl⟩
  · intro h
    cases h

theorem stateInv_of_phase_ne (t : GameState) (h1 : t.phase ≠ Phase.START)
    (h2 : t.phase ≠ Phase.SETUP_P1) : StateInv t :=
  ⟨fun h => absurd h h1, fun h => absurd h h2⟩

theorem playHintCard_phase (s : GameState) (card : HintCard) (input : Str) (rand : ℚ) :
    (playHintCard s card input rand).phase = s.phase
    ∨ (playHintCard s card input rand).phase = Phase.ENDGAME
    ∨ (playHintCard s card input rand).phase = Phase.PASS_TO_GUESS_P1
    ∨ (playHintCard s card input rand).phase = Phase.PASS_TO_GUESS_P2 := by
  cases hsec : (if s.phase = Phase.GUESS_P1 then s.p2 else s.p1).secret with
  | none => simp [playHintCard, hsec]
  | some os =>
    by_cases hguard : card.requiresInput = true ∧ trimS input = []
    · simp [playHintCard, hsec, hguard]
    · simp only [playHintCard, hsec, if_neg hguard]
      split_ifs <;> simp

theorem submitGuess_phase (s : GameState) (g : Str) :
    (submitGuess s g).phase = s.phase
    ∨ (submitGuess s g).phase = Phase.ENDGAME
    ∨ (submitGuess s g).phase = Phase.PASS_TO_GUESS_P1
    ∨ (submitGuess s g).phase = Phase.PASS_TO_GUESS_P2 := by
  by_cases ht : trimS g = []
  · simp [submitGuess, ht]
  · cases hsec : (if s.phase = Phase.GUESS_P1 then s.p2 else s.p1).secret with
    | none => simp [submitGuess, ht, hsec]
    | some os =>
      by_cases hc : toLowerS g = os.word <;>
        · simp only [submitGuess, if_neg ht, hsec, hc]
          split_ifs <;> simp

theorem stateInv_step (s : GameState) (a : Action) (hinv : StateInv s)
    (hall : allowed s a) : StateInv (applyAction s a) := by
  cases a with
  | start stream =>
    have hp : s.phase = Phase.START := hall
    by_cases hd : s.dictionaryReady = false
    · simpa [applyAction, startGame, hd] using hinv
    · constructor
      · simp [applyAction, startGame, hd]
      · simp only [applyAction, startGame, if_neg hd]
        intro _
        exact (hinv.1 hp).2
  | confirm words w stream =>
    by_cases hp : s.phase = Phase.SETUP_P1
    · rcases hsec : s.p1.secret with _ | ps
      · simpa [applyAction, confirmSetupWord, hp, hsec] using hinv
      · rcases hval : validateWord words w ps.letters with _ | e
        · constructor <;> simp [applyAction, confirmSetupWord, hp, hsec, hval]
        · simpa [applyAction, confirmSetupWord, hp, hsec, hval] using hinv
    · rcases hsec : s.p2.secret with _ | ps
      · simpa [applyAction, confirmSetupWord, hp, hsec] using hinv
      · rcases hval : validateWord words w ps.letters with _ | e
        · constructor <;> simp [applyAction, confirmSetupWord, hp, hsec, hval]
        · simpa [applyAction, confirmSetupWord, hp, hsec, hval] using hinv
  | proceed =>
    by_cases h1 : s.phase = Phase.PASS_TO_GUESS_P1
    · constructor <;> simp [applyAction, proceedToGuess, h1]
    · by_cases h2 : s.phase = Phase.PASS_TO_GUESS_P2
      · constructor <;> simp [applyAction, proceedToGuess, h1, h2]
      · simpa [applyAction, proceedToGuess, h1, h2] using hinv
  | hint card input rand =>
    obtain ⟨hp, _⟩ := hall
    refine stateInv_of_phase_ne _ ?_ ?_ <;>
      · intro hcon
        simp only [applyAction] at hcon
        rcases playHintCard_phase s card input rand with h | h | h | h <;>
          rw [h] at hcon <;>
          first
            | (rcases hp with hp | hp <;> rw [hp] at hcon <;> cases hcon)
            | cases hcon
  | guess w =>
    have hp := hall
    refine stateInv_of_phase_ne _ ?_ ?_ <;>
      · intro hcon
        simp only [applyAction] at hcon
        rcases submitGuess_phase s w with h | h | h | h <;>
          rw [h] at hcon <;>
          first
            | (rcases hp with hp | hp <;> rw [hp] at hcon <;> cases hcon)
            | cases hcon
  | dictLoaded =>
    exact ⟨fun h => hinv.1 h, fun h => hinv.2 h⟩
  | reset ready =>
    constructor
    · intro _
      exact ⟨rfl, rfl⟩
    · intro h
      cases h

theorem reachable_stateInv (s : GameState) (hr : Reachable s) : StateInv s := by
  induction hr with
  | init => exact stateInv_init
  | step hr hall ih => exact stateInv_step _ _ ih hall

/-- C7: across every allowed non-reset transition from a reachable state
(start, confirm, proceed, hint, guess, and the dictionary-loaded
callback), both player scores are non-decreasing and a solved flag that is
true stays true. -/
theorem C7_scores_monotone (s : GameState) (a : Action) (hr : Reachable s)
    (hall : allowed s a) (hnr : ∀ b, a ≠ Action.reset b) :
    s.p1.pub.score ≤ (applyAction s a).p1.pub.score
    ∧ s.p2.pub.score ≤ (applyAction s a).p2.pub.score
    ∧ (s.p1.pub.guessSolved = true → (applyAction s a).p1.pub.guessSolved = true)
    ∧ (s.p2.pub.guessSolved = true → (applyAction s a).p2.pub.guessSolved = true) := by
  have hinv := reachable_stateInv s hr
  cases a with
  | start stream =>
    have hp : s.phase = Phase.START := hall
    by_cases hd : s.dictionaryReady = false
    · simp [applyAction, startGame, hd]
    · have h1 := (hinv.1 hp).1
      refine ⟨?_, ?_, ?_, ?_⟩ <;>
        simp [applyAction, startGame, hd, h1, freshPublic]
  | confirm words w stream =>
    by_cases hp : s.phase = Phase.SETUP_P1
    · rcases hsec : s.p1.secret with _ | ps
      · simp [applyAction, confirmSetupWord, hp, hsec]
      · rcases hval : validateWord words w ps.letters with _ | e
        · have h2 := hinv.2 hp
          refine ⟨?_, ?_, ?_, ?_⟩ <;>
            simp [applyAction, confirmSetupWord, hp, hsec, hval, h2, freshPublic]
        · simp [applyAction, confirmSetupWord, hp, hsec, hval]
    · rcases hsec : s.p2.secret with _ | ps
      · simp [applyAction, confirmSetupWord, hp, hsec]
      · rcases hval : validateWord words w ps.letters with _ | e
        · refine ⟨?_, ?_, ?_, ?_⟩ <;>
            simp [applyAction, confirmSetupWord, hp, hsec, hval]
        · simp [applyAction, confirmSetupWord, hp, hsec, hval]
  | proceed =>
    by_cases h1 : s.phase = Phase.PASS_TO_GUESS_P1
    · simp [applyAction, proceedToGuess, h1]
    · by_cases h2 : s.phase = Phase.PASS_TO_GUESS_P2 <;>
        simp [applyAction, proceedToGuess, h1, h2]
  | hint card input rand =>
    obtain ⟨hp, hcard⟩ := hall
    have hcost := cost_nonneg_of_catalog card hcard
    by_cases hguard : card.requiresInput = true ∧ trimS input = []
    · rcases hp with hp | hp
      · rcases hsec : s.p2.secret with _ | os <;>
          simp [applyAction, playHintCard, hp, hsec, hguard]
      · rcases hsec : s.p1.secret with _ | os <;>
          simp [applyAction, playHintCard, hp, hsec, hguard]
    · rcases hp with hp | hp
      · rcases hsec : s.p2.secret with _ | os
        · simp [applyAction, playHintCard, hp, hsec]
        · refine ⟨?_, ?_, ?_, ?_⟩ <;>
            simp [applyAction, playHintCard, hp, hsec, hguard] <;>
            omega
      · rcases hsec : s.p1.secret with _ | os
        · simp [applyAction, playHintCard, hp, hsec]
        · refine ⟨?_, ?_, ?_, ?_⟩ <;>
            simp [applyAction, playHintCard, hp, hsec, hguard] <;>
            omega
  | guess w =>
    by_cases ht : trimS w = []
    · simp [applyAction, submitGuess, ht]
    · rcases hall with hp | hp
      · rcases hsec : s.p2.secret with _ | os
        · simp [applyAction, submitGuess, ht, hp, hsec]
        · by_cases hc : toLowerS w = os.word <;>
            refine ⟨?_, ?_, ?_, ?_⟩ <;>
            simp [applyAction, submitGuess, ht, hp, hsec, hc, WRONG_GUESS_PENALTY] <;>
            omega
      · rcases hsec : s.p1.secret with _ | os
        · simp [applyAction, submitGuess, ht, hp, hsec]
        · by_cases hc : toLowerS w = os.word <;>
            refine ⟨?_, ?_, ?_, ?_⟩ <;>
            simp [applyAction, submitGuess, ht, hp, hsec, hc, WRONG_GUESS_PENALTY] <;>
            omega
  | dictLoaded =>
    exact ⟨le_refl _, le_refl _, fun h => h, fun h => h⟩
  | reset ready =>
    exact absurd rfl (hnr ready)

/-- Witness for C7: the proceed action on the initial state. -/
theorem C7_scores_monotone_witness :
    initState.p1.pub.score ≤ (applyAction initState .proceed).p1.pub.score
    ∧ initState.p2.pub.score ≤ (applyAction initState .proceed).p2.pub.score
    ∧ (initState.p1.pub.guessSolved = true →
        (applyAction initState .proceed).p1.pub.guessSolved = true)
    ∧ (initState.p2.pub.guessSolved = true →
        (applyAction initState .proceed).p2.pub.guessSolved = true) :=
  C7_scores_monotone initState .proceed Reachable.init trivial
    (fun b h => Action.noConfusion h)

end WordDuel
